import Mathlib

/-!
Shallow embedding of the core data structures of a small TCP/IP stack:

* `RingBuffer` — `src/storage/ring_buffer.rs`: a bounded FIFO over a
  caller-owned storage slab with discrete, continuous and random-access
  interfaces.
* IPv6 extension header codec — `src/wire/ipv6ext_header.rs`.
* `Loopback` device — `src/phy/loopback.rs`.

Storage is modelled as a `List α`; machine indices are `Nat` with explicit
`% capacity` where the source takes a modulus.  Closures passed to the
`_with` operations are modelled as Lean functions returning the mutated
slice together with the committed size (and an extra result value).
-/

namespace Smoltcp

/-- The `Full` error of the storage module (`storage/mod.rs`). -/
structure Full : Type where
deriving DecidableEq

/-- The `Empty` error of the storage module (`storage/mod.rs`). -/
structure Empty : Type where
deriving DecidableEq

/-- In-place overwrite of the elements of `l` starting at index `i` with the
elements of `seg` (a `copy_from_slice` into a subslice).  `List.set` is a
no-op out of range, so the length of `l` is always preserved. -/
def overwrite {α : Type} : List α → Nat → List α → List α
  | l, _, [] => l
  | l, i, a :: rest => overwrite (l.set i a) (i + 1) rest

/-- `RingBuffer<'a, T>` from `src/storage/ring_buffer.rs`: a managed storage
slab, the current read position and the number of stored elements. -/
structure RingBuffer (α : Type) : Type where
  storage : List α
  read_at : Nat
  length : Nat
deriving DecidableEq

namespace RingBuffer

variable {α : Type} [Inhabited α] {R : Type}

/-- `RingBuffer::new`: wrap a storage slab, `read_at = 0`, `length = 0`. -/
def new (storage : List α) : RingBuffer α :=
  { storage := storage, read_at := 0, length := 0 }

/-- `RingBuffer::clear`. -/
def clear (rb : RingBuffer α) : RingBuffer α :=
  { rb with read_at := 0, length := 0 }

/-- `RingBuffer::capacity`: length of the storage slab. -/
def capacity (rb : RingBuffer α) : Nat :=
  rb.storage.length

/-- `RingBuffer::len`. -/
def len (rb : RingBuffer α) : Nat :=
  rb.length

/-- `RingBuffer::window`: number of free slots. -/
def window (rb : RingBuffer α) : Nat :=
  rb.capacity - rb.len

/-- `RingBuffer::get_idx`: `(read_at + idx) % capacity`, guarded on a
non-zero capacity. -/
def get_idx (rb : RingBuffer α) (idx : Nat) : Nat :=
  let len := rb.capacity
  if len > 0 then (rb.read_at + idx) % len else 0

/-- `RingBuffer::get_idx_unchecked`: `(read_at + idx) % capacity` with no
zero-capacity guard (only called on paths where `capacity > 0`). -/
def get_idx_unchecked (rb : RingBuffer α) (idx : Nat) : Nat :=
  (rb.read_at + idx) % rb.capacity

/-- `RingBuffer::contiguous_window`. -/
def contiguous_window (rb : RingBuffer α) : Nat :=
  min rb.window (rb.capacity - rb.get_idx rb.length)

/-- `RingBuffer::is_empty`. -/
def is_empty (rb : RingBuffer α) : Bool :=
  rb.len == 0

/-- `RingBuffer::is_full`. -/
def is_full (rb : RingBuffer α) : Bool :=
  rb.window == 0

/-- `RingBuffer::enqueue_one_with`.  The closure `f` maps the slot's value to
its new value plus a success flag (`Ok`/`Err` of the Rust closure).  Returns
the updated buffer and `Err(Full)` or the success flag. -/
def enqueue_one_with (f : α → α × Bool) (rb : RingBuffer α) :
    RingBuffer α × Except Full Bool :=
  if rb.is_full then (rb, .error ⟨⟩)
  else
    let index := rb.get_idx_unchecked rb.length
    let fr := f (rb.storage.getD index default)
    let rb1 := { rb with storage := rb.storage.set index fr.1 }
    if fr.2 then ({ rb1 with length := rb1.length + 1 }, .ok true)
    else (rb1, .ok false)

/-- `RingBuffer::enqueue_one`: shortcut for `enqueue_one_with(Ok)`. -/
def enqueue_one (rb : RingBuffer α) : RingBuffer α × Except Full Bool :=
  rb.enqueue_one_with fun e => (e, true)

/-- `RingBuffer::dequeue_one_with`. -/
def dequeue_one_with (f : α → α × Bool) (rb : RingBuffer α) :
    RingBuffer α × Except Empty Bool :=
  if rb.is_empty then (rb, .error ⟨⟩)
  else
    let next_at := rb.get_idx_unchecked 1
    let fr := f (rb.storage.getD rb.read_at default)
    let rb1 := { rb with storage := rb.storage.set rb.read_at fr.1 }
    if fr.2 then ({ rb1 with length := rb1.length - 1, read_at := next_at }, .ok true)
    else (rb1, .ok false)

/-- `RingBuffer::dequeue_one`: shortcut for `dequeue_one_with(Ok)`. -/
def dequeue_one (rb : RingBuffer α) : RingBuffer α × Except Empty Bool :=
  rb.dequeue_one_with fun e => (e, true)

/-- `RingBuffer::enqueue_many_with`.  The closure receives the largest
contiguous slice of unallocated elements and returns the mutated slice, the
committed size and a result.  The source asserts `size <= max_size`; here
that panic-freedom condition appears as a hypothesis of the theorems. -/
def enqueue_many_with (f : List α → List α × Nat × R) (rb : RingBuffer α) :
    RingBuffer α × Nat × R :=
  let rb1 := if rb.length = 0 then { rb with read_at := 0 } else rb
  let write_at := rb1.get_idx rb1.length
  let max_size := rb1.contiguous_window
  let fr := f ((rb1.storage.drop write_at).take max_size)
  ({ rb1 with storage := overwrite rb1.storage write_at fr.1,
              length := rb1.length + fr.2.1 },
   fr.2.1, fr.2.2)

/-- `RingBuffer::enqueue_many`: commit `min size buf.len` slots and return
the (contents of the) committed slice. -/
def enqueue_many (size : Nat) (rb : RingBuffer α) : RingBuffer α × List α :=
  let r := rb.enqueue_many_with fun buf =>
    let size := min size buf.length
    (buf, size, buf.take size)
  (r.1, r.2.2)

/-- `RingBuffer::enqueue_slice`: two `enqueue_many_with` calls copying from
`data`, to span a possible wrap-around. -/
def enqueue_slice (data : List α) (rb : RingBuffer α) : RingBuffer α × Nat :=
  let r1 := rb.enqueue_many_with fun buf =>
    let size := min buf.length data.length
    (overwrite buf 0 (data.take size), size, data.drop size)
  let r2 := r1.1.enqueue_many_with fun buf =>
    let size := min buf.length r1.2.2.length
    (overwrite buf 0 (r1.2.2.take size), size, ())
  (r2.1, r1.2.1 + r2.2.1)

/-- `RingBuffer::dequeue_many_with`. -/
def dequeue_many_with (f : List α → List α × Nat × R) (rb : RingBuffer α) :
    RingBuffer α × Nat × R :=
  let cap := rb.capacity
  let max_size := min rb.len (cap - rb.read_at)
  let fr := f ((rb.storage.drop rb.read_at).take max_size)
  ({ rb with storage := overwrite rb.storage rb.read_at fr.1,
             read_at := if cap > 0 then (rb.read_at + fr.2.1) % cap else 0,
             length := rb.length - fr.2.1 },
   fr.2.1, fr.2.2)

/-- `RingBuffer::dequeue_many`. -/
def dequeue_many (size : Nat) (rb : RingBuffer α) : RingBuffer α × List α :=
  let r := rb.dequeue_many_with fun buf =>
    let size := min size buf.length
    (buf, size, buf.take size)
  (r.1, r.2.2)

/-- `RingBuffer::dequeue_slice`: two `dequeue_many_with` calls copying into
`data`.  The third component of the result is the final contents of the
caller's destination slice `data`. -/
def dequeue_slice (data : List α) (rb : RingBuffer α) :
    RingBuffer α × Nat × List α :=
  let r1 := rb.dequeue_many_with fun buf =>
    let size := min buf.length data.length
    (buf, size, buf.take size)
  let rest := data.drop r1.2.1
  let r2 := r1.1.dequeue_many_with fun buf =>
    let size := min buf.length rest.length
    (buf, size, buf.take size)
  (r2.1, r1.2.1 + r2.2.1, r1.2.2 ++ r2.2.2 ++ data.drop (r1.2.1 + r2.2.1))

/-- Start index and size of the slice `RingBuffer::get_unallocated` returns:
`start = get_idx (length + offset)`, clamped by the remaining window and by
the end of the storage. -/
def unalloc_span (offset size : Nat) (rb : RingBuffer α) : Nat × Nat :=
  let start_at := rb.get_idx (rb.length + offset)
  if offset > rb.window then (start_at, 0)
  else
    let size1 := min size (rb.window - offset)
    let size2 := min size1 (rb.capacity - start_at)
    (start_at, size2)

/-- `RingBuffer::get_unallocated` (the contents of the returned slice). -/
def get_unallocated (offset size : Nat) (rb : RingBuffer α) : List α :=
  let s := rb.unalloc_span offset size
  (rb.storage.drop s.1).take s.2

/-- `RingBuffer::write_unallocated`: two `get_unallocated`-shaped writes. -/
def write_unallocated (offset : Nat) (data : List α) (rb : RingBuffer α) :
    RingBuffer α × Nat :=
  let s1 := rb.unalloc_span offset data.length
  let rb1 := { rb with storage := overwrite rb.storage s1.1 (data.take s1.2) }
  let data2 := data.drop s1.2
  let s2 := rb1.unalloc_span (offset + s1.2) data2.length
  let rb2 := { rb1 with storage := overwrite rb1.storage s2.1 (data2.take s2.2) }
  (rb2, s1.2 + s2.2)

/-- `RingBuffer::enqueue_unallocated`.  The source asserts
`count <= window`; panic-freedom appears as a hypothesis in the theorems. -/
def enqueue_unallocated (count : Nat) (rb : RingBuffer α) : RingBuffer α :=
  { rb with length := rb.length + count }

/-- Start index and size of the slice `RingBuffer::get_allocated` returns. -/
def alloc_span (offset size : Nat) (rb : RingBuffer α) : Nat × Nat :=
  let start_at := rb.get_idx offset
  if offset > rb.length then (start_at, 0)
  else
    let size1 := min size (rb.length - offset)
    let size2 := min size1 (rb.capacity - start_at)
    (start_at, size2)

/-- `RingBuffer::get_allocated` (the contents of the returned slice). -/
def get_allocated (offset size : Nat) (rb : RingBuffer α) : List α :=
  let s := rb.alloc_span offset size
  (rb.storage.drop s.1).take s.2

/-- `RingBuffer::read_allocated`: two `get_allocated` reads into `data`.
Returns the amount read and the final contents of `data`. -/
def read_allocated (offset : Nat) (data : List α) (rb : RingBuffer α) :
    Nat × List α :=
  let slice1 := rb.get_allocated offset data.length
  let rest := data.drop slice1.length
  let slice2 := rb.get_allocated (offset + slice1.length) rest.length
  (slice1.length + slice2.length,
   slice1 ++ slice2 ++ data.drop (slice1.length + slice2.length))

/-- `RingBuffer::dequeue_allocated`.  The source asserts `count <= len`;
panic-freedom appears as a hypothesis in the theorems. -/
def dequeue_allocated (count : Nat) (rb : RingBuffer α) : RingBuffer α :=
  { rb with length := rb.length - count, read_at := rb.get_idx count }

/-- The state invariant of a ring buffer of capacity `C`: the length stays
in `[0, C]`, the read position stays in `[0, C)` when `C > 0`, and both
collapse to `0` when `C = 0`. -/
def Inv (rb : RingBuffer α) : Prop :=
  rb.length ≤ rb.capacity ∧
  (0 < rb.capacity → rb.read_at < rb.capacity) ∧
  (rb.capacity = 0 → rb.length = 0 ∧ rb.read_at = 0)

/-- One public `RingBuffer` operation, as a step relation between states.
Closure arguments are arbitrary Lean functions; for the bulk `_with`
operations the side condition `hf` states that the closure commits no more
elements than the slice it is given, and the side conditions on
`enqueue_unallocated`/`dequeue_allocated` are the source's assertions. -/
inductive Step {α : Type} [Inhabited α] : RingBuffer α → RingBuffer α → Prop where
  | enqueue_one_with (rb : RingBuffer α) (f : α → α × Bool) :
      Step rb (RingBuffer.enqueue_one_with f rb).1
  | enqueue_one (rb : RingBuffer α) :
      Step rb (RingBuffer.enqueue_one rb).1
  | dequeue_one_with (rb : RingBuffer α) (f : α → α × Bool) :
      Step rb (RingBuffer.dequeue_one_with f rb).1
  | dequeue_one (rb : RingBuffer α) :
      Step rb (RingBuffer.dequeue_one rb).1
  | enqueue_many_with {R : Type} (rb : RingBuffer α)
      (f : List α → List α × Nat × R) (hf : ∀ s, (f s).2.1 ≤ s.length) :
      Step rb (RingBuffer.enqueue_many_with f rb).1
  | enqueue_many (rb : RingBuffer α) (size : Nat) :
      Step rb (RingBuffer.enqueue_many size rb).1
  | enqueue_slice (rb : RingBuffer α) (data : List α) :
      Step rb (RingBuffer.enqueue_slice data rb).1
  | dequeue_many_with {R : Type} (rb : RingBuffer α)
      (f : List α → List α × Nat × R) (hf : ∀ s, (f s).2.1 ≤ s.length) :
      Step rb (RingBuffer.dequeue_many_with f rb).1
  | dequeue_many (rb : RingBuffer α) (size : Nat) :
      Step rb (RingBuffer.dequeue_many size rb).1
  | dequeue_slice (rb : RingBuffer α) (data : List α) :
      Step rb (RingBuffer.dequeue_slice data rb).1
  | write_unallocated (rb : RingBuffer α) (offset : Nat) (data : List α) :
      Step rb (RingBuffer.write_unallocated offset data rb).1
  | enqueue_unallocated (rb : RingBuffer α) (count : Nat)
      (h : count ≤ rb.window) :
      Step rb (RingBuffer.enqueue_unallocated count rb)
  | read_allocated (rb : RingBuffer α) (offset : Nat) (data : List α) :
      Step rb rb
  | dequeue_allocated (rb : RingBuffer α) (count : Nat)
      (h : count ≤ rb.len) :
      Step rb (RingBuffer.dequeue_allocated count rb)
  | clear (rb : RingBuffer α) :
      Step rb (RingBuffer.clear rb)

end RingBuffer

/-- The opaque wire error of `src/wire` (`Error`). -/
structure WireError : Type where
deriving DecidableEq

namespace Ipv6ExtHeader

/-- `field::MIN_HEADER_SIZE` from `src/wire/ipv6ext_header.rs`. -/
def MIN_HEADER_SIZE : Nat := 8

/-- `field::LENGTH`: index of the header-length byte. -/
def LENGTH : Nat := 1

/-- `field::NXT_HDR`: index of the next-header byte. -/
def NXT_HDR : Nat := 0

/-- End of the `field::PAYLOAD(length_field)` range `2..bytes`:
`bytes = length_field * 8 + 8`. -/
def payload_end (length_field : Nat) : Nat :=
  length_field * 8 + 8

/-- A `Header<T>` is just its byte buffer; bytes are modelled as `Nat`. -/
def check_len (buffer : List Nat) : Except WireError Unit :=
  if buffer.length < MIN_HEADER_SIZE then .error ⟨⟩
  else if buffer.length < payload_end (buffer.getD LENGTH 0) then .error ⟨⟩
  else .ok ()

/-- `Header::new_checked`: `new_unchecked` plus `check_len`. -/
def new_checked (buffer : List Nat) : Except WireError (List Nat) :=
  match check_len buffer with
  | .error e => .error e
  | .ok _ => .ok buffer

/-- `Header::header_len`: the raw length byte. -/
def header_len (buffer : List Nat) : Nat :=
  buffer.getD LENGTH 0

/-- `Header::payload`: the range `2 .. payload_end(buffer[1])` of the
buffer (`&data[field::PAYLOAD(data[field::LENGTH])]`). -/
def payload (buffer : List Nat) : List Nat :=
  (buffer.take (payload_end (buffer.getD LENGTH 0))).drop 2

end Ipv6ExtHeader

/-- The `Loopback` device of `src/phy/loopback.rs`: a FIFO queue of owned
byte frames.  (The `medium` field does not affect queue behaviour.) -/
structure Loopback : Type where
  queue : List (List Nat)
deriving DecidableEq

namespace Loopback

/-- `DeviceCapabilities::max_transmission_unit` reported by
`Loopback::capabilities`. -/
def max_transmission_unit : Nat := 65535

/-- `Loopback::new`: empty queue. -/
def new : Loopback := { queue := [] }

/-- `Device::receive` for `Loopback`: pop one frame from the queue head
(`queue.pop_front()`); `none` when the queue is empty.  The popped bytes
make the `RxToken`; the paired `TxToken` borrows the remaining queue. -/
def receive (d : Loopback) : Option (List Nat × Loopback) :=
  match d.queue with
  | [] => none
  | buffer :: rest => some (buffer, { queue := rest })

/-- `RxToken::consume`: invoke `f` on the frame's bytes and forward the
result (`f` returns the mutated bytes plus its value). -/
def rxConsume {R : Type} (buffer : List Nat) (f : List Nat → List Nat × R) :
    List Nat × R :=
  f buffer

/-- `TxToken::consume` (the `TxToken` issued by `transmit`/`receive` holds a
mutable borrow of `d.queue`): allocate `len` zeroed bytes, invoke `f`, push
the (possibly modified) buffer to the queue tail, return `f`'s result. -/
def txConsume {R : Type} (d : Loopback) (len : Nat)
    (f : List Nat → List Nat × R) : Loopback × R :=
  let buffer := List.replicate len 0
  let fr := f buffer
  ({ queue := d.queue ++ [fr.1] }, fr.2)

end Loopback

end Smoltcp

namespace Smoltcp

theorem overwrite_nil {α : Type} (l : List α) (i : Nat) :
    overwrite l i [] = l := rfl

theorem overwrite_length {α : Type} (s l : List α) (i : Nat) :
    (overwrite l i s).length = l.length := by
  induction s generalizing l i with
  | nil => rfl
  | cons a t ih => simp [overwrite, ih, List.length_set]

theorem overwrite_cons {α : Type} (s l : List α) (x : α) (i : Nat) :
    overwrite (x :: l) (i + 1) s = x :: overwrite l i s := by
  induction s generalizing l i x with
  | nil => rfl
  | cons a t ih =>
    show overwrite ((x :: l).set (i + 1) a) (i + 2) t = _
    rw [List.set_cons_succ, ih]
    rfl

theorem overwrite_zero {α : Type} (s l : List α) (h : s.length ≤ l.length) :
    overwrite l 0 s = s ++ l.drop s.length := by
  induction s generalizing l with
  | nil => rfl
  | cons a t ih =>
    cases l with
    | nil => simp at h
    | cons x l' =>
      show overwrite ((x :: l').set 0 a) 1 t = _
      rw [List.set_cons_zero, overwrite_cons, ih l' (by simpa using h)]
      rfl

theorem overwrite_eq {α : Type} (s l : List α) (i : Nat)
    (h : i + s.length ≤ l.length) :
    overwrite l i s = l.take i ++ s ++ l.drop (i + s.length) := by
  induction i generalizing l with
  | zero => simpa using overwrite_zero s l (by omega)
  | succ i ih =>
    cases l with
    | nil =>
      have : s = [] := by
        cases s with
        | nil => rfl
        | cons a t => simp at h
      simp [this, overwrite_nil]
    | cons x l' =>
      rw [overwrite_cons, ih l' (by simp at h; omega)]
      simp [List.take_cons, Nat.add_right_comm]

end Smoltcp

namespace Smoltcp

theorem overwrite_drop_take {α : Type} (l : List α) (i n : Nat)
    (h : i ≤ l.length) :
    overwrite l i ((l.drop i).take n) = l := by
  rw [overwrite_eq _ _ _ (by simp; omega)]
  rcases Nat.le_total n (l.length - i) with h3 | h3
  · have hlen : ((l.drop i).take n).length = n := by simp; omega
    rw [hlen, ← List.take_add, List.take_append_drop]
  · have hall : (l.drop i).take n = l.drop i :=
      List.take_of_length_le (by simp; omega)
    have h4 : i + ((l.drop i).take n).length = l.length := by
      simp [hall]; omega
    rw [h4, List.drop_length, List.append_nil, hall, List.take_append_drop]

namespace RingBuffer

variable {α : Type} [Inhabited α] {R : Type}

theorem capacity_enqueue_one_with (f : α → α × Bool) (rb : RingBuffer α) :
    (rb.enqueue_one_with f).1.capacity = rb.capacity := by
  unfold enqueue_one_with capacity
  split <;> simp <;> split <;> simp

theorem capacity_dequeue_one_with (f : α → α × Bool) (rb : RingBuffer α) :
    (rb.dequeue_one_with f).1.capacity = rb.capacity := by
  unfold dequeue_one_with capacity
  split <;> simp <;> split <;> simp

theorem capacity_enqueue_many_with (f : List α → List α × Nat × R)
    (rb : RingBuffer α) :
    (rb.enqueue_many_with f).1.capacity = rb.capacity := by
  unfold enqueue_many_with capacity
  split <;> simp [overwrite_length]

theorem capacity_dequeue_many_with (f : List α → List α × Nat × R)
    (rb : RingBuffer α) :
    (rb.dequeue_many_with f).1.capacity = rb.capacity := by
  unfold dequeue_many_with capacity
  simp [overwrite_length]

theorem capacity_write_unallocated (offset : Nat) (data : List α)
    (rb : RingBuffer α) :
    (rb.write_unallocated offset data).1.capacity = rb.capacity := by
  unfold write_unallocated capacity
  simp [overwrite_length]

end RingBuffer

end Smoltcp

namespace Smoltcp
namespace RingBuffer

variable {α : Type} [Inhabited α] {R : Type}

theorem inv_clear (rb : RingBuffer α) : (rb.clear).Inv := by
  simp [Inv, clear, capacity]

theorem inv_enqueue_one_with (f : α → α × Bool) (rb : RingBuffer α)
    (h : rb.Inv) : (rb.enqueue_one_with f).1.Inv := by
  obtain ⟨h1, h2, h3⟩ := h
  simp only [Inv, capacity, len] at h1 h2 h3 ⊢
  unfold enqueue_one_with
  split
  · exact ⟨h1, h2, h3⟩
  next hful =>
    have hlt : rb.length < rb.storage.length := by
      simp [is_full, window, len, capacity] at hful
      omega
    dsimp only
    split <;> (refine ⟨?_, ?_, ?_⟩ <;> simp only [List.length_set] <;> omega)

theorem inv_dequeue_one_with (f : α → α × Bool) (rb : RingBuffer α)
    (h : rb.Inv) : (rb.dequeue_one_with f).1.Inv := by
  obtain ⟨h1, h2, h3⟩ := h
  simp only [Inv, capacity, len] at h1 h2 h3 ⊢
  unfold dequeue_one_with
  split
  · exact ⟨h1, h2, h3⟩
  next hemp =>
    have hpos : 0 < rb.length := by
      simp [is_empty, len] at hemp
      omega
    have hcap : 0 < rb.storage.length := by omega
    dsimp only
    split
    · refine ⟨?_, ?_, ?_⟩
      · simp only [List.length_set]
        omega
      · simp only [List.length_set, get_idx_unchecked, capacity]
        intro h
        exact Nat.mod_lt _ h
      · simp only [List.length_set]
        intro hz
        exact absurd hz (by omega)
    · refine ⟨?_, ?_, ?_⟩ <;> simp only [List.length_set] <;> omega

theorem inv_enqueue_many_with (f : List α → List α × Nat × R)
    (hf : ∀ s, (f s).2.1 ≤ s.length) (rb : RingBuffer α)
    (h : rb.Inv) : (rb.enqueue_many_with f).1.Inv := by
  obtain ⟨h1, h2, h3⟩ := h
  simp only [Inv, capacity, len] at h1 h2 h3 ⊢
  unfold enqueue_many_with
  dsimp only
  split
  next hzero =>
    simp only [overwrite_length, contiguous_window, window, len, capacity,
      get_idx, List.length_take, List.length_drop, and_true, true_and]
    have hs := hf (List.take
      ((rb.storage.length - rb.length) ⊓
        (rb.storage.length -
          if rb.storage.length > 0 then (0 + rb.length) % rb.storage.length
          else 0))
      (List.drop
        (if rb.storage.length > 0 then (0 + rb.length) % rb.storage.length
         else 0) rb.storage))
    simp only [List.length_take, List.length_drop] at hs
    refine ⟨?_, ?_, ?_⟩ <;> omega
  next hnz =>
    simp only [overwrite_length, contiguous_window, window, len, capacity,
      get_idx, List.length_take, List.length_drop, and_true, true_and]
    have hs := hf (List.take
      ((rb.storage.length - rb.length) ⊓
        (rb.storage.length -
          if rb.storage.length > 0 then
            (rb.read_at + rb.length) % rb.storage.length
          else 0))
      (List.drop
        (if rb.storage.length > 0 then
          (rb.read_at + rb.length) % rb.storage.length
         else 0) rb.storage))
    simp only [List.length_take, List.length_drop] at hs
    refine ⟨?_, ?_, ?_⟩ <;> omega

theorem inv_dequeue_many_with (f : List α → List α × Nat × R)
    (rb : RingBuffer α) (h : rb.Inv) : (rb.dequeue_many_with f).1.Inv := by
  obtain ⟨h1, h2, h3⟩ := h
  simp only [Inv, capacity, len] at h1 h2 h3 ⊢
  unfold dequeue_many_with
  dsimp only
  refine ⟨?_, ?_, ?_⟩ <;> simp only [overwrite_length]
  · omega
  · simp only [len, capacity]
    split
    next hc =>
      intro
      exact Nat.mod_lt _ hc
    next hc => omega
  · simp only [len, capacity]
    split
    next hc =>
      intro hz
      exact absurd hz (by omega)
    next hc => omega

theorem inv_write_unallocated (offset : Nat) (data : List α)
    (rb : RingBuffer α) (h : rb.Inv) :
    (rb.write_unallocated offset data).1.Inv := by
  obtain ⟨h1, h2, h3⟩ := h
  simp only [Inv, capacity, len] at h1 h2 h3 ⊢
  unfold write_unallocated
  dsimp only
  refine ⟨?_, ?_, ?_⟩ <;> simp only [overwrite_length] <;> omega

theorem inv_enqueue_unallocated (count : Nat) (rb : RingBuffer α)
    (hcnt : count ≤ rb.window) (h : rb.Inv) :
    (rb.enqueue_unallocated count).Inv := by
  obtain ⟨h1, h2, h3⟩ := h
  simp only [Inv, capacity, len] at h1 h2 h3 ⊢
  simp only [window, len, capacity] at hcnt
  unfold enqueue_unallocated
  refine ⟨?_, ?_, ?_⟩ <;> dsimp only <;> omega

theorem inv_dequeue_allocated (count : Nat) (rb : RingBuffer α)
    (hcnt : count ≤ rb.len) (h : rb.Inv) :
    (rb.dequeue_allocated count).Inv := by
  obtain ⟨h1, h2, h3⟩ := h
  simp only [Inv, capacity, len] at h1 h2 h3 ⊢
  simp only [len] at hcnt
  unfold dequeue_allocated get_idx
  refine ⟨?_, ?_, ?_⟩
  · dsimp only
    omega
  · dsimp only
    simp only [capacity, len]
    split
    · intro hc
      exact Nat.mod_lt _ (by omega)
    · omega
  · dsimp only
    simp only [capacity, len]
    split
    · intro hz
      exact absurd hz (by omega)
    · omega

theorem inv_enqueue_many (size : Nat) (rb : RingBuffer α) (h : rb.Inv) :
    (rb.enqueue_many size).1.Inv := by
  unfold enqueue_many
  dsimp only
  exact inv_enqueue_many_with _ (fun s => by dsimp only; omega) rb h

theorem inv_enqueue_slice (data : List α) (rb : RingBuffer α) (h : rb.Inv) :
    (rb.enqueue_slice data).1.Inv := by
  unfold enqueue_slice
  dsimp only
  refine inv_enqueue_many_with _ (fun s => by dsimp only; omega) _
    (inv_enqueue_many_with _ (fun s => by dsimp only; omega) rb h)

theorem inv_dequeue_many (size : Nat) (rb : RingBuffer α) (h : rb.Inv) :
    (rb.dequeue_many size).1.Inv := by
  unfold dequeue_many
  dsimp only
  exact inv_dequeue_many_with _ rb h

theorem inv_dequeue_slice (data : List α) (rb : RingBuffer α) (h : rb.Inv) :
    (rb.dequeue_slice data).1.Inv := by
  unfold dequeue_slice
  dsimp only
  exact inv_dequeue_many_with _ _ (inv_dequeue_many_with _ rb h)

theorem inv_step {rb rb' : RingBuffer α} (h : rb.Inv) (hs : Step rb rb') :
    rb'.Inv := by
  cases hs with
  | enqueue_one_with rb f => exact inv_enqueue_one_with f rb h
  | enqueue_one rb => exact inv_enqueue_one_with _ rb h
  | dequeue_one_with rb f => exact inv_dequeue_one_with f rb h
  | dequeue_one rb => exact inv_dequeue_one_with _ rb h
  | enqueue_many_with rb f hf => exact inv_enqueue_many_with f hf rb h
  | enqueue_many rb size => exact inv_enqueue_many size rb h
  | enqueue_slice rb data => exact inv_enqueue_slice data rb h
  | dequeue_many_with rb f hf => exact inv_dequeue_many_with f rb h
  | dequeue_many rb size => exact inv_dequeue_many size rb h
  | dequeue_slice rb data => exact inv_dequeue_slice data rb h
  | write_unallocated rb offset data => exact inv_write_unallocated offset data rb h
  | enqueue_unallocated rb count hcnt => exact inv_enqueue_unallocated count rb hcnt h
  | read_allocated rb offset data => exact h
  | dequeue_allocated rb count hcnt => exact inv_dequeue_allocated count rb hcnt h
  | clear rb => exact inv_clear rb

theorem inv_new (storage : List α) : (RingBuffer.new storage).Inv := by
  simp [Inv, new, capacity]

theorem capacity_step {rb rb' : RingBuffer α} (hs : Step rb rb') :
    rb'.capacity = rb.capacity := by
  cases hs with
  | enqueue_one_with rb f => exact capacity_enqueue_one_with f rb
  | enqueue_one rb => exact capacity_enqueue_one_with _ rb
  | dequeue_one_with rb f => exact capacity_dequeue_one_with f rb
  | dequeue_one rb => exact capacity_dequeue_one_with _ rb
  | enqueue_many_with rb f hf => exact capacity_enqueue_many_with f rb
  | enqueue_many rb size =>
    unfold RingBuffer.enqueue_many
    dsimp only
    exact capacity_enqueue_many_with _ rb
  | enqueue_slice rb data =>
    unfold RingBuffer.enqueue_slice
    dsimp only
    exact (capacity_enqueue_many_with _ _).trans (capacity_enqueue_many_with _ rb)
  | dequeue_many_with rb f hf => exact capacity_dequeue_many_with f rb
  | dequeue_many rb size =>
    unfold RingBuffer.dequeue_many
    dsimp only
    exact capacity_dequeue_many_with _ rb
  | dequeue_slice rb data =>
    unfold RingBuffer.dequeue_slice
    dsimp only
    exact (capacity_dequeue_many_with _ _).trans (capacity_dequeue_many_with _ rb)
  | write_unallocated rb offset data => exact capacity_write_unallocated offset data rb
  | enqueue_unallocated rb count hcnt => rfl
  | read_allocated rb offset data => rfl
  | dequeue_allocated rb count hcnt => rfl
  | clear rb => rfl

/-- C1: for every `RingBuffer` of capacity `C` and every sequence of its
public operations (with closures committing no more than the slice they are
given, and the asserted preconditions of `enqueue_unallocated` and
`dequeue_allocated` holding), at all times `length` is in `[0, C]`,
`read_at` is in `[0, C)` when `C > 0`, and `length = read_at = 0` when
`C = 0`; the capacity itself never changes. -/
theorem ring_buffer_ops_preserve_bounds {α : Type} [Inhabited α]
    (storage : List α) (rb' : RingBuffer α)
    (h : Relation.ReflTransGen Step (RingBuffer.new storage) rb') :
    rb'.length ≤ storage.length ∧
    (0 < storage.length → rb'.read_at < storage.length) ∧
    (storage.length = 0 → rb'.length = 0 ∧ rb'.read_at = 0) ∧
    rb'.capacity = storage.length := by
  have key : rb'.capacity = storage.length ∧ rb'.Inv := by
    induction h with
    | refl => exact ⟨rfl, inv_new storage⟩
    | tail hab hbc ih => exact ⟨(capacity_step hbc).trans ih.1, inv_step ih.2 hbc⟩
  obtain ⟨hc, hi⟩ := key
  simp only [Inv] at hi
  rw [hc] at hi
  exact ⟨hi.1, hi.2.1, hi.2.2, hc⟩

theorem ring_buffer_ops_preserve_bounds_witness :
    ((RingBuffer.new ([0, 0] : List Nat)).enqueue_one).1.length ≤ 2 ∧
    (0 < 2 → ((RingBuffer.new ([0, 0] : List Nat)).enqueue_one).1.read_at < 2) ∧
    (2 = 0 → ((RingBuffer.new ([0, 0] : List Nat)).enqueue_one).1.length = 0 ∧
      ((RingBuffer.new ([0, 0] : List Nat)).enqueue_one).1.read_at = 0) ∧
    ((RingBuffer.new ([0, 0] : List Nat)).enqueue_one).1.capacity = 2 :=
  ring_buffer_ops_preserve_bounds [0, 0] _
    (Relation.ReflTransGen.single (Step.enqueue_one (RingBuffer.new [0, 0])))

/-- C3: on a buffer with `length = 0` (any `read_at`), `enqueue_many n`
rebases `read_at` to 0 and returns the contiguous slice
`storage.take (min n C)` of length exactly `min n C`; more generally
`enqueue_many_with` leaves `read_at = 0` whenever the buffer was empty,
whatever the closure commits. -/
theorem enqueue_many_empty_rebase {α : Type} [Inhabited α] {R : Type}
    (rb : RingBuffer α) (n : Nat) (f : List α → List α × Nat × R)
    (h : rb.length = 0) :
    (rb.enqueue_many n).2.length = min n rb.capacity ∧
    (rb.enqueue_many n).2 = rb.storage.take (min n rb.capacity) ∧
    (rb.enqueue_many n).1.read_at = 0 ∧
    (rb.enqueue_many_with f).1.read_at = 0 := by
  unfold enqueue_many enqueue_many_with
  simp only [h, if_pos rfl]
  simp [contiguous_window, window, get_idx, capacity, len, List.take_take]

theorem enqueue_many_empty_rebase_witness :
    (RingBuffer.enqueue_many 5 (⟨[5, 6, 7], 2, 0⟩ : RingBuffer Nat)).2.length
        = min 5 3 ∧
    (RingBuffer.enqueue_many 5 (⟨[5, 6, 7], 2, 0⟩ : RingBuffer Nat)).2
        = [5, 6, 7] ∧
    (RingBuffer.enqueue_many 5 (⟨[5, 6, 7], 2, 0⟩ : RingBuffer Nat)).1.read_at
        = 0 ∧
    (RingBuffer.enqueue_many_with (fun s => (s, 0, ()))
        (⟨[5, 6, 7], 2, 0⟩ : RingBuffer Nat)).1.read_at = 0 :=
  enqueue_many_empty_rebase ⟨[5, 6, 7], 2, 0⟩ 5 (fun s => (s, 0, ())) rfl

/-- C5: `enqueue_one_with f` fails with `Full` iff `length = capacity`,
leaving the state unchanged; otherwise it applies `f` exactly once to the
slot at physical index `(read_at + length) % capacity` and increments
`length` iff `f` succeeds, never touching `read_at`.  Symmetrically
`dequeue_one_with g` fails with `Empty` iff `length = 0` with no state
change, and otherwise applies `g` to the slot at `read_at`, advancing
`read_at` by one (mod `C`) and decrementing `length` iff `g` succeeds. -/
theorem one_with_transaction_spec {α : Type} [Inhabited α]
    (rb : RingBuffer α) (f g : α → α × Bool) (h1 : rb.length ≤ rb.capacity) :
    ((rb.enqueue_one_with f).2 = .error ⟨⟩ ↔ rb.length = rb.capacity) ∧
    (rb.length = rb.capacity → (rb.enqueue_one_with f).1 = rb) ∧
    (rb.length < rb.capacity →
      (rb.enqueue_one_with f).1.storage =
        rb.storage.set ((rb.read_at + rb.length) % rb.capacity)
          (f (rb.storage.getD ((rb.read_at + rb.length) % rb.capacity)
            default)).1 ∧
      (rb.enqueue_one_with f).1.read_at = rb.read_at ∧
      (rb.enqueue_one_with f).1.length = rb.length +
        (if (f (rb.storage.getD ((rb.read_at + rb.length) % rb.capacity)
          default)).2 then 1 else 0)) ∧
    ((rb.dequeue_one_with g).2 = .error ⟨⟩ ↔ rb.length = 0) ∧
    (rb.length = 0 → (rb.dequeue_one_with g).1 = rb) ∧
    (0 < rb.length →
      (rb.dequeue_one_with g).1.storage =
        rb.storage.set rb.read_at (g (rb.storage.getD rb.read_at default)).1 ∧
      (rb.dequeue_one_with g).1.read_at =
        (if (g (rb.storage.getD rb.read_at default)).2
          then (rb.read_at + 1) % rb.capacity else rb.read_at) ∧
      (rb.dequeue_one_with g).1.length = rb.length -
        (if (g (rb.storage.getD rb.read_at default)).2 then 1 else 0)) := by
  simp only [capacity] at h1 ⊢
  refine ⟨?_, ?_, ?_, ?_, ?_, ?_⟩
  · unfold enqueue_one_with
    split
    next hful =>
      simp only [is_full, window, len, capacity, beq_iff_eq] at hful
      dsimp only
      simp only [eq_self_iff_true, true_iff]
      omega
    next hful =>
      simp only [is_full, window, len, capacity, beq_iff_eq] at hful
      dsimp only
      split <;> simp <;> omega
  · intro heq
    unfold enqueue_one_with
    rw [if_pos]
    simp only [is_full, window, len, capacity, beq_iff_eq]
    omega
  · intro hlt
    unfold enqueue_one_with
    rw [if_neg (by simp only [is_full, window, len, capacity, beq_iff_eq]; omega)]
    dsimp only
    simp only [get_idx_unchecked, capacity]
    split <;> simp_all
  · unfold dequeue_one_with
    split
    next hemp =>
      simp only [is_empty, len, beq_iff_eq] at hemp
      dsimp only
      simp only [eq_self_iff_true, true_iff]
      omega
    next hemp =>
      simp only [is_empty, len, beq_iff_eq] at hemp
      dsimp only
      split <;> simp <;> omega
  · intro heq
    unfold dequeue_one_with
    rw [if_pos]
    simp only [is_empty, len, beq_iff_eq]
    omega
  · intro hpos
    unfold dequeue_one_with
    rw [if_neg (by simp only [is_empty, len, beq_iff_eq]; omega)]
    dsimp only
    simp only [get_idx_unchecked, capacity]
    split <;> simp_all

theorem one_with_transaction_spec_witness :
    ((RingBuffer.enqueue_one_with (fun e => (e + 10, true))
        (⟨[1, 2, 3], 1, 2⟩ : RingBuffer Nat)).2 = .error ⟨⟩ ↔ 2 = 3) ∧
    (2 = 3 → (RingBuffer.enqueue_one_with (fun e => (e + 10, true))
        (⟨[1, 2, 3], 1, 2⟩ : RingBuffer Nat)).1 = ⟨[1, 2, 3], 1, 2⟩) ∧
    (2 < 3 →
      (RingBuffer.enqueue_one_with (fun e => (e + 10, true))
          (⟨[1, 2, 3], 1, 2⟩ : RingBuffer Nat)).1.storage =
        List.set [1, 2, 3] ((1 + 2) % 3)
          ((fun (e : Nat) => (e + 10, true))
            (List.getD [1, 2, 3] ((1 + 2) % 3) default)).1 ∧
      (RingBuffer.enqueue_one_with (fun e => (e + 10, true))
          (⟨[1, 2, 3], 1, 2⟩ : RingBuffer Nat)).1.read_at = 1 ∧
      (RingBuffer.enqueue_one_with (fun e => (e + 10, true))
          (⟨[1, 2, 3], 1, 2⟩ : RingBuffer Nat)).1.length = 2 +
        (if ((fun (e : Nat) => (e + 10, true))
            (List.getD [1, 2, 3] ((1 + 2) % 3) default)).2 then 1 else 0)) ∧
    ((RingBuffer.dequeue_one_with (fun e => (e, false))
        (⟨[1, 2, 3], 1, 2⟩ : RingBuffer Nat)).2 = .error ⟨⟩ ↔ 2 = 0) ∧
    (2 = 0 → (RingBuffer.dequeue_one_with (fun e => (e, false))
        (⟨[1, 2, 3], 1, 2⟩ : RingBuffer Nat)).1 = ⟨[1, 2, 3], 1, 2⟩) ∧
    (0 < 2 →
      (RingBuffer.dequeue_one_with (fun e => (e, false))
          (⟨[1, 2, 3], 1, 2⟩ : RingBuffer Nat)).1.storage =
        List.set [1, 2, 3] 1
          ((fun (e : Nat) => (e, false)) (List.getD [1, 2, 3] 1 default)).1 ∧
      (RingBuffer.dequeue_one_with (fun e => (e, false))
          (⟨[1, 2, 3], 1, 2⟩ : RingBuffer Nat)).1.read_at =
        (if ((fun (e : Nat) => (e, false)) (List.getD [1, 2, 3] 1 default)).2
          then (1 + 1) % 3 else 1) ∧
      (RingBuffer.dequeue_one_with (fun e => (e, false))
          (⟨[1, 2, 3], 1, 2⟩ : RingBuffer Nat)).1.length = 2 -
        (if ((fun (e : Nat) => (e, false)) (List.getD [1, 2, 3] 1 default)).2
          then 1 else 0)) :=
  one_with_transaction_spec ⟨[1, 2, 3], 1, 2⟩ (fun e => (e + 10, true))
    (fun e => (e, false)) (by decide)

/-- C6: on a `RingBuffer` of capacity 0 (in any reachable state, i.e. with
`length = 0`), `is_empty` and `is_full` both hold, `enqueue_one` fails with
`Full` and `dequeue_one` with `Empty` leaving the state unchanged,
`get_unallocated 0 0` and `get_allocated 0 0` are empty slices,
`contiguous_window` is 0, and every index computation `get_idx i`
collapses to 0 (the `capacity > 0` guard prevents any modulus by zero). -/
theorem zero_capacity_spec {α : Type} [Inhabited α] (rb : RingBuffer α)
    (i : Nat) (h : rb.storage = []) (h0 : rb.length = 0) :
    rb.is_empty = true ∧
    rb.is_full = true ∧
    (rb.enqueue_one).2 = .error ⟨⟩ ∧
    (rb.enqueue_one).1 = rb ∧
    (rb.dequeue_one).2 = .error ⟨⟩ ∧
    (rb.dequeue_one).1 = rb ∧
    rb.get_unallocated 0 0 = [] ∧
    rb.get_allocated 0 0 = [] ∧
    rb.contiguous_window = 0 ∧
    rb.get_idx i = 0 := by
  obtain ⟨st, ra, le⟩ := rb
  simp only at h h0
  subst h
  subst h0
  refine ⟨?_, ?_, ?_, ?_, ?_, ?_, ?_, ?_, ?_, ?_⟩ <;>
    simp [is_empty, is_full, window, len, capacity, enqueue_one,
      enqueue_one_with, dequeue_one, dequeue_one_with, get_unallocated,
      unalloc_span, get_allocated, alloc_span, get_idx, contiguous_window]

theorem zero_capacity_spec_witness :
    (RingBuffer.new ([] : List Nat)).is_empty = true ∧
    (RingBuffer.new ([] : List Nat)).is_full = true ∧
    ((RingBuffer.new ([] : List Nat)).enqueue_one).2 = .error ⟨⟩ ∧
    ((RingBuffer.new ([] : List Nat)).enqueue_one).1 =
      RingBuffer.new ([] : List Nat) ∧
    ((RingBuffer.new ([] : List Nat)).dequeue_one).2 = .error ⟨⟩ ∧
    ((RingBuffer.new ([] : List Nat)).dequeue_one).1 =
      RingBuffer.new ([] : List Nat) ∧
    (RingBuffer.new ([] : List Nat)).get_unallocated 0 0 = [] ∧
    (RingBuffer.new ([] : List Nat)).get_allocated 0 0 = [] ∧
    (RingBuffer.new ([] : List Nat)).contiguous_window = 0 ∧
    (RingBuffer.new ([] : List Nat)).get_idx 7 = 0 :=
  zero_capacity_spec (RingBuffer.new []) 7 rfl rfl

/-- C2 counterexample: in the S4 scenario on a zero-initialised buffer of
capacity 12 (`write_unallocated 4 "ijkl"`, then `enqueue_slice "abcdefgh"`,
then `enqueue_unallocated 4`), the final `dequeue_slice` into a 12-byte
buffer does *not* yield `"abcdefghijkl"`: the in-order `enqueue_slice`
writes physical slots 0..8 and so overwrites the out-of-order bytes that
`write_unallocated 4` placed at slots 4..8. -/
theorem out_of_order_scenario_counterexample :
    (RingBuffer.dequeue_slice (List.replicate 12 0)
        (RingBuffer.enqueue_unallocated 4
          (RingBuffer.enqueue_slice [97, 98, 99, 100, 101, 102, 103, 104]
            (RingBuffer.write_unallocated 4 [105, 106, 107, 108]
              (RingBuffer.new (List.replicate 12 (0 : Nat)))).1).1)).2.2 ≠
      [97, 98, 99, 100, 101, 102, 103, 104, 105, 106, 107, 108] := by
  decide

/-- C2 (amended): on an empty zero-initialised `RingBuffer` of capacity 12,
`write_unallocated 4 "ijkl"` returns 4 and `get_unallocated 4 4` reads back
`"ijkl"` with length still 0; then `enqueue_slice "abcdefgh"` returns 8
making length 8 (overwriting the bytes previously written at offset 4,
which occupy physical slots 4..8); then `enqueue_unallocated 4` makes
length 12; and the final `dequeue_slice` into a 12-byte buffer returns 12
and yields `"abcdefgh"` followed by the four untouched storage bytes
(zeros), leaving length 0. -/
theorem out_of_order_scenario :
    (RingBuffer.write_unallocated 4 [105, 106, 107, 108]
        (RingBuffer.new (List.replicate 12 (0 : Nat)))).2 = 4 ∧
    RingBuffer.get_unallocated 4 4
        (RingBuffer.write_unallocated 4 [105, 106, 107, 108]
          (RingBuffer.new (List.replicate 12 (0 : Nat)))).1 =
      [105, 106, 107, 108] ∧
    (RingBuffer.write_unallocated 4 [105, 106, 107, 108]
        (RingBuffer.new (List.replicate 12 (0 : Nat)))).1.length = 0 ∧
    (RingBuffer.enqueue_slice [97, 98, 99, 100, 101, 102, 103, 104]
        (RingBuffer.write_unallocated 4 [105, 106, 107, 108]
          (RingBuffer.new (List.replicate 12 (0 : Nat)))).1).2 = 8 ∧
    (RingBuffer.enqueue_slice [97, 98, 99, 100, 101, 102, 103, 104]
        (RingBuffer.write_unallocated 4 [105, 106, 107, 108]
          (RingBuffer.new (List.replicate 12 (0 : Nat)))).1).1.length = 8 ∧
    (RingBuffer.enqueue_unallocated 4
        (RingBuffer.enqueue_slice [97, 98, 99, 100, 101, 102, 103, 104]
          (RingBuffer.write_unallocated 4 [105, 106, 107, 108]
            (RingBuffer.new (List.replicate 12 (0 : Nat)))).1).1).length
      = 12 ∧
    (RingBuffer.dequeue_slice (List.replicate 12 0)
        (RingBuffer.enqueue_unallocated 4
          (RingBuffer.enqueue_slice [97, 98, 99, 100, 101, 102, 103, 104]
            (RingBuffer.write_unallocated 4 [105, 106, 107, 108]
              (RingBuffer.new (List.replicate 12 (0 : Nat)))).1).1)).2.1
      = 12 ∧
    (RingBuffer.dequeue_slice (List.replicate 12 0)
        (RingBuffer.enqueue_unallocated 4
          (RingBuffer.enqueue_slice [97, 98, 99, 100, 101, 102, 103, 104]
            (RingBuffer.write_unallocated 4 [105, 106, 107, 108]
              (RingBuffer.new (List.replicate 12 (0 : Nat)))).1).1)).2.2
      = [97, 98, 99, 100, 101, 102, 103, 104, 0, 0, 0, 0] ∧
    (RingBuffer.dequeue_slice (List.replicate 12 0)
        (RingBuffer.enqueue_unallocated 4
          (RingBuffer.enqueue_slice [97, 98, 99, 100, 101, 102, 103, 104]
            (RingBuffer.write_unallocated 4 [105, 106, 107, 108]
              (RingBuffer.new (List.replicate 12 (0 : Nat)))).1).1)).1.length
      = 0 := by
  decide

theorem guard_mod_le (x n : Nat) : (if 0 < n then x % n else 0) ≤ n := by
  split
  · exact Nat.le_of_lt (Nat.mod_lt _ (by assumption))
  · exact Nat.zero_le n

theorem enqueue_slice_into_empty {α : Type} [Inhabited α]
    (storage D : List α) (hD : D.length ≤ storage.length) :
    (RingBuffer.new storage).enqueue_slice D =
      (⟨D ++ storage.drop D.length, 0, D.length⟩, D.length) := by
  have hmin : storage.length ⊓ D.length = D.length := Nat.min_eq_right hD
  have houter : overwrite storage 0 (D ++ storage.drop D.length) =
      D ++ storage.drop D.length := by
    rw [overwrite_zero _ _ (by simp; omega)]
    have hlen : (D ++ storage.drop D.length).length = storage.length := by
      simp
      omega
    rw [hlen, List.drop_length, List.append_nil]
  have hA : (D ++ storage.drop D.length).length = storage.length := by
    simp
    omega
  unfold enqueue_slice enqueue_many_with
  dsimp only
  simp [new, len, capacity, window, contiguous_window, get_idx, hmin,
    overwrite_zero D storage hD, houter, hA, overwrite_drop_take,
    guard_mod_le, overwrite_nil]

theorem dequeue_slice_round {α : Type} [Inhabited α]
    (D rest dst : List α) (hdst : dst.length = D.length) :
    (RingBuffer.dequeue_slice dst
        (⟨D ++ rest, 0, D.length⟩ : RingBuffer α)).2.1 = D.length ∧
    (RingBuffer.dequeue_slice dst
        (⟨D ++ rest, 0, D.length⟩ : RingBuffer α)).2.2 = D ∧
    (RingBuffer.dequeue_slice dst
        (⟨D ++ rest, 0, D.length⟩ : RingBuffer α)).1.length = 0 := by
  have hmax : D.length ⊓ (D ++ rest).length = D.length := by
    simp
  have hslice : (D ++ rest).take D.length = D := List.take_left D rest
  have hmin2 : D.length ⊓ dst.length = D.length := by omega
  have hdrop : dst.drop D.length = [] := by
    rw [← hdst]
    exact List.drop_length dst
  have hover : overwrite (D ++ rest) 0 D = D ++ rest := by
    rw [overwrite_zero _ _ (by simp)]
    simp [List.drop_left]
  unfold dequeue_slice dequeue_many_with
  dsimp only
  simp [len, capacity, hmax, hslice, hmin2, hdrop, hover, List.take_left,
    overwrite_nil]

/-- C4: starting from a fresh (empty) buffer over `storage`, for any data
`D` with `|D| ≤ C`, `enqueue_slice D` returns `|D|`, and a subsequent
`dequeue_slice` into a destination of size `|D|` returns `|D|`, fills the
destination with exactly `D`, and leaves `length = 0`. -/
theorem enqueue_dequeue_slice_round_trip {α : Type} [Inhabited α]
    (storage D dst : List α) (hD : D.length ≤ storage.length)
    (hdst : dst.length = D.length) :
    ((RingBuffer.new storage).enqueue_slice D).2 = D.length ∧
    (RingBuffer.dequeue_slice dst
        ((RingBuffer.new storage).enqueue_slice D).1).2.1 = D.length ∧
    (RingBuffer.dequeue_slice dst
        ((RingBuffer.new storage).enqueue_slice D).1).2.2 = D ∧
    (RingBuffer.dequeue_slice dst
        ((RingBuffer.new storage).enqueue_slice D).1).1.length = 0 := by
  have hd := dequeue_slice_round D (storage.drop D.length) dst hdst
  rw [enqueue_slice_into_empty storage D hD]
  exact ⟨rfl, hd.1, hd.2.1, hd.2.2⟩

theorem enqueue_dequeue_slice_round_trip_witness :
    ((RingBuffer.new (List.replicate 5 (0 : Nat))).enqueue_slice
        [7, 8, 9]).2 = 3 ∧
    (RingBuffer.dequeue_slice [0, 0, 0]
        ((RingBuffer.new (List.replicate 5 (0 : Nat))).enqueue_slice
          [7, 8, 9]).1).2.1 = 3 ∧
    (RingBuffer.dequeue_slice [0, 0, 0]
        ((RingBuffer.new (List.replicate 5 (0 : Nat))).enqueue_slice
          [7, 8, 9]).1).2.2 = [7, 8, 9] ∧
    (RingBuffer.dequeue_slice [0, 0, 0]
        ((RingBuffer.new (List.replicate 5 (0 : Nat))).enqueue_slice
          [7, 8, 9]).1).1.length = 0 :=
  enqueue_dequeue_slice_round_trip (List.replicate 5 0) [7, 8, 9] [0, 0, 0]
    (by decide) (by decide)

end RingBuffer

/-- C7: `Header::check_len` (and hence `new_checked`) fails exactly when the
buffer is shorter than 8 bytes or shorter than `8 * B[1] + 8` bytes; in all
other cases it succeeds, and `new_checked` returns the buffer unchanged. -/
theorem check_len_spec (B : List Nat) :
    (Ipv6ExtHeader.check_len B = .error ⟨⟩ ↔
      B.length < 8 ∨ B.length < 8 * B.getD 1 0 + 8) ∧
    (Ipv6ExtHeader.new_checked B = .error ⟨⟩ ↔
      B.length < 8 ∨ B.length < 8 * B.getD 1 0 + 8) ∧
    (¬(B.length < 8 ∨ B.length < 8 * B.getD 1 0 + 8) →
      Ipv6ExtHeader.new_checked B = .ok B) := by
  by_cases h8 : B.length < 8
  · simp [Ipv6ExtHeader.check_len, Ipv6ExtHeader.new_checked,
      Ipv6ExtHeader.MIN_HEADER_SIZE, Ipv6ExtHeader.LENGTH,
      Ipv6ExtHeader.payload_end, h8]
  · by_cases hlen : B.length < B.getD 1 0 * 8 + 8 <;>
      simp only [List.getD_eq_getElem?_getD] at hlen
    · simp [Ipv6ExtHeader.check_len, Ipv6ExtHeader.new_checked,
        Ipv6ExtHeader.MIN_HEADER_SIZE, Ipv6ExtHeader.LENGTH,
        Ipv6ExtHeader.payload_end, h8, hlen]
      omega
    · simp [Ipv6ExtHeader.check_len, Ipv6ExtHeader.new_checked,
        Ipv6ExtHeader.MIN_HEADER_SIZE, Ipv6ExtHeader.LENGTH,
        Ipv6ExtHeader.payload_end, h8, hlen]
      omega

/-- C8: when the buffer is at least `8 * B[1] + 8` bytes long,
`Header::payload` returns exactly the bytes `B[2 .. 8 * B[1] + 8]`, so its
length is `8 * header_len + 6` regardless of any extra bytes at the end of
the buffer. -/
theorem payload_spec (B : List Nat) (h : 8 * B.getD 1 0 + 8 ≤ B.length) :
    Ipv6ExtHeader.payload B = (B.drop 2).take (8 * B.getD 1 0 + 6) ∧
    (Ipv6ExtHeader.payload B).length = 8 * B.getD 1 0 + 6 := by
  unfold Ipv6ExtHeader.payload Ipv6ExtHeader.payload_end Ipv6ExtHeader.LENGTH
  constructor
  · rw [List.drop_take]
    congr 1
    omega
  · simp only [List.length_drop, List.length_take]
    omega

theorem payload_spec_witness :
    Ipv6ExtHeader.payload [6, 0, 1, 4, 0, 0, 0, 0, 0] = [1, 4, 0, 0, 0, 0] ∧
    (Ipv6ExtHeader.payload [6, 0, 1, 4, 0, 0, 0, 0, 0]).length = 6 :=
  payload_spec [6, 0, 1, 4, 0, 0, 0, 0, 0] (by decide)

/-- C9: for the `Loopback` device a transmit-token commit appends exactly
one frame to the queue tail and `receive` pops exactly one frame from the
queue head, so frames come out in the order their transmit tokens were
consumed: transmitting `[1]`, `[2]`, `[3]` and then receiving three times
observes `[1]`, `[2]`, `[3]`, and a fourth receive returns `none`. -/
theorem loopback_fifo_order (d : Loopback) (len : Nat) (b : List Nat)
    (q : List (List Nat)) {R : Type} (f : List Nat → List Nat × R) :
    (Loopback.txConsume d len f).1.queue =
      d.queue ++ [(f (List.replicate len 0)).1] ∧
    Loopback.receive ⟨b :: q⟩ = some (b, ⟨q⟩) ∧
    Loopback.receive ⟨[]⟩ = none ∧
    Loopback.receive
        (Loopback.txConsume
          (Loopback.txConsume
            (Loopback.txConsume Loopback.new 1
              (fun buf => (overwrite buf 0 [1], ()))).1 1
            (fun buf => (overwrite buf 0 [2], ()))).1 1
          (fun buf => (overwrite buf 0 [3], ()))).1 =
      some ([1], ⟨[[2], [3]]⟩) ∧
    Loopback.receive ⟨[[2], [3]]⟩ = some ([2], ⟨[[3]]⟩) ∧
    Loopback.receive ⟨[[3]]⟩ = some ([3], ⟨[]⟩) ∧
    Loopback.receive ⟨[]⟩ = none := by
  refine ⟨rfl, rfl, rfl, ?_, rfl, rfl, rfl⟩
  decide

/-- C10: `TxToken::consume len f` hands `f` a freshly allocated buffer of
exactly `len` zero bytes, invokes `f` once, unconditionally appends the
(possibly modified) buffer to the loopback queue and returns `f`'s result;
no MTU bound is enforced (the equation holds even for
`len = max_transmission_unit + 1`).  A token dropped without `consume`
corresponds to applying no operation, leaving the queue unchanged. -/
theorem tx_consume_spec (d : Loopback) (len : Nat) {R : Type}
    (f : List Nat → List Nat × R) :
    Loopback.txConsume d len f =
      (⟨d.queue ++ [(f (List.replicate len 0)).1]⟩,
        (f (List.replicate len 0)).2) ∧
    (List.replicate len 0).length = len ∧
    (∀ x ∈ List.replicate len 0, x = 0) ∧
    Loopback.max_transmission_unit = 65535 ∧
    (Loopback.txConsume d (Loopback.max_transmission_unit + 1) f).1.queue =
      d.queue ++
        [(f (List.replicate (Loopback.max_transmission_unit + 1) 0)).1] := by
  refine ⟨rfl, List.length_replicate len 0, ?_, rfl, rfl⟩
  intro x hx
  exact List.eq_of_mem_replicate hx

end Smoltcp